import Mathlib

/-!
Verification of the conversation-orchestration core of the open-coder agent.

The embedding models, from the Go source:
  * the JSON document type used by the capability schemas and arguments
    (`map[string]any` is an association list with string keys);
  * `SimpleAgent.buildOpenAIToolsFromMCP`'s per-descriptor schema
    normalization;
  * `SimpleAgent.GetAllTools` (catalog refresh across sessions);
  * `SimpleAgent.CallTool` (dispatch with fallback across sessions);
  * `SimpleAgent.InitConversation` and `SimpleAgent.ProcessUserInput`
    (the orchestration loop), with the streaming completion client as an
    abstract oracle and the unbounded `for {}` loop given explicit fuel.
-/

namespace SimpleAgent

/-- A JSON document, as produced by Go's `encoding/json` unmarshalling:
numbers are modelled as integers (their exact value never matters here). -/
inductive Json where
  | null
  | bool (b : Bool)
  | num (n : Int)
  | str (s : String)
  | arr (elems : List Json)
  | obj (fields : List (String × Json))

/-- Go's `map[string]any` after unmarshalling a JSON object: an association
list with string keys (unmarshalling produces each key at most once). -/
abbrev JObj := List (String × Json)

/-- Lookup in a `map[string]any`: `v, ok := m[k]`. -/
def jfind (m : JObj) (k : String) : Option Json :=
  (m.find? (fun p => p.1 = k)).map (·.2)

/-- Assignment `m[k] = v` on a `map[string]any`: replaces the binding when
the key is present, otherwise adds it. -/
def jset (m : JObj) (k : String) (v : Json) : JObj :=
  if (jfind m k).isSome then
    m.map (fun p => if p.1 = k then (k, v) else p)
  else
    m ++ [(k, v)]

/-- Go `delete(m, k)` on a `map[string]any`. -/
def jerase (m : JObj) (k : String) : JObj :=
  m.filter (fun p => p.1 ≠ k)

/-- Go `json.Unmarshal(raw, &m)` for `m : map[string]any`: a JSON object yields
its map, JSON `null` leaves the map `nil` (no error), and any other JSON
value is an unmarshalling error. -/
def unmarshalToMap : Json → Except String (Option JObj)
  | Json.obj o => Except.ok (some o)
  | Json.null => Except.ok none
  | _ => Except.error "json: cannot unmarshal value into map[string]any"

/-- Source `if v, ok := paramsObj["type"]; !ok || v != "object"`: force `type` to
the string `"object"`. -/
def normType (paramsObj : JObj) : JObj :=
  match jfind paramsObj "type" with
  | some (Json.str "object") => paramsObj
  | _ => jset paramsObj "type" (Json.str "object")

/-- Source `if _, ok := paramsObj["properties"]; !ok`: add `properties` when the
key is missing. -/
def normPropsPresent (p1 : JObj) : JObj :=
  match jfind p1 "properties" with
  | some _ => p1
  | none => jset p1 "properties" (Json.obj [])

/-- Source `if props, ok := paramsObj["properties"].(map[string]any); !ok || props
== nil`: replace a non-map `properties` value by the empty map. -/
def normPropsMap (p2 : JObj) : JObj :=
  match jfind p2 "properties" with
  | some (Json.obj _) => p2
  | _ => jset p2 "properties" (Json.obj [])

/-- Source `props := paramsObj["properties"].(map[string]any)`: the properties map
(the type assertion cannot fail after `normPropsMap`). -/
def propsOf (p3 : JObj) : JObj :=
  match jfind p3 "properties" with
  | some (Json.obj o) => o
  | _ => []

/-- The `"uid"` filter: when `"uid"` is a property it is deleted and, when
`required` is an array, only its non-`"uid"` string entries are kept. -/
def normUid (p3 : JObj) : JObj :=
  if (jfind (propsOf p3) "uid").isSome then
    let p4 : JObj := jset p3 "properties" (Json.obj (jerase (propsOf p3) "uid"))
    match jfind p4 "required" with
    | some (Json.arr l) =>
      jset p4 "required"
        (Json.arr (l.filter (fun j => match j with
                                      | Json.str s => s ≠ "uid"
                                      | _ => false)))
    | _ => p4
  else p3

/-- The per-descriptor schema normalization of
`SimpleAgent.buildOpenAIToolsFromMCP`: absent schema becomes
`{type: object, properties: {}}`, a `nil` map (from JSON `null`) becomes the
empty map, then the four in-place fixups run in source order. -/
def normalizeParams (schema : Option Json) : Except String JObj :=
  let pm : Except String (Option JObj) :=
    match schema with
    | none => Except.ok (some [("type", Json.str "object"),
                               ("properties", Json.obj [])])
    | some j => unmarshalToMap j
  match pm with
  | Except.error e => Except.error e
  | Except.ok m0 =>
    Except.ok (normUid (normPropsMap (normPropsPresent (normType (m0.getD [])))))

/-- A capability descriptor as returned by a session's `ListTools`:
`InputSchema` is the already-marshalled schema document (`none` models a
`nil` schema pointer). -/
structure ToolDecl where
  name : String
  description : String
  inputSchema : Option Json

/-- The result of a successful `CallTool` on a session: its `Content` list
(each content item reduced to its textual representation). -/
structure CallRes where
  content : List String

/-- One MCP session (`MCPServerConfig.Session`), abstracted to the two
operations the orchestration core uses. -/
structure Session where
  listTools : Except String (List ToolDecl)
  invoke : String → Option JObj → Except String CallRes

/-- A normalized catalog entry (`openai.ChatCompletionToolUnionParam`
restricted to the fields the core sets). -/
structure OpenAITool where
  name : String
  description : String
  parameters : JObj

/-- Embedding of `SimpleAgent.buildOpenAIToolsFromMCP`: list the session's tools and
normalize every schema; any per-tool unmarshalling failure fails the whole
session's build. -/
def buildOpenAIToolsFromMCP (s : Session) : Except String (List OpenAITool) :=
  match s.listTools with
  | Except.error e => Except.error e
  | Except.ok tools =>
    tools.mapM (fun t =>
      match normalizeParams t.inputSchema with
      | Except.error e =>
        Except.error ("unmarshal input schema for " ++ t.name ++ ": " ++ e)
      | Except.ok o => Except.ok ⟨t.name, t.description, o⟩)

/-- The accumulator loop of `SimpleAgent.GetAllTools`: a failing session is
logged and skipped, a successful one appends its tools. -/
def getAllToolsLoop : List Session → List OpenAITool → List OpenAITool
  | [], acc => acc
  | s :: rest, acc =>
    match buildOpenAIToolsFromMCP s with
    | Except.error _ => getAllToolsLoop rest acc
    | Except.ok ts => getAllToolsLoop rest (acc ++ ts)

/-- Embedding of `SimpleAgent.GetAllTools`: aggregates per-session catalogs in server
order; the Go function's returned error is literally always `nil`. -/
def GetAllTools (servers : List Session) : Except String (List OpenAITool) :=
  Except.ok (getAllToolsLoop servers [])

/-- The `uid` injection at the top of `SimpleAgent.CallTool`: when the agent
has a user id, the argument map is created if absent and `arguments["uid"]`
is set. -/
def injectUid (userID : String) (arguments : Option JObj) : Option JObj :=
  if userID = "" then arguments
  else some (jset (arguments.getD []) "uid" (Json.str userID))

/-- The `interface{}` value `CallTool` returns on success: the first content
item, or the fixed success message when the content list is empty. -/
inductive CallToolValue where
  | content (c : String)
  | defaultMsg

/-- Textual form of a `CallTool` success value, as `fmt.Sprintf("%v", result)`
renders it. -/
def CallToolValue.render : CallToolValue → String
  | content c => c
  | defaultMsg => "Tool executed successfully"

/-- Conversion of a successful session response to the dispatcher's result:
`res.Content[0]` when non-empty, else the fixed success string. -/
def resValue (r : CallRes) : CallToolValue :=
  match r.content with
  | c :: _ => CallToolValue.content c
  | [] => CallToolValue.defaultMsg

/-- The server iteration of `SimpleAgent.CallTool`: first session whose
invoke returns without error wins; all-error falls through to the
not-found error. -/
def callToolLoop (toolName : String) (args : Option JObj) :
    List Session → Except String CallToolValue
  | [] =>
    Except.error ("tool " ++ toolName ++ " not found in any connected server")
  | s :: rest =>
    match s.invoke toolName args with
    | Except.ok res => Except.ok (resValue res)
    | Except.error _ => callToolLoop toolName args rest

/-- Embedding of `SimpleAgent.CallTool`: inject the user id, then try each server in
registration order. -/
def CallTool (userID : String) (servers : List Session) (toolName : String)
    (arguments : Option JObj) : Except String CallToolValue :=
  callToolLoop toolName (injectUid userID arguments) servers

/-- The raw argument document of a tool call
(`toolCall.Function.Arguments`): either text that parses to a JSON value, or
text that is not valid JSON. -/
inductive ArgDoc where
  | wellFormed (j : Json)
  | malformed (raw : String)

/-- Go `json.Unmarshal([]byte(args), &args)` for `args : map[string]any` on a
raw argument document: an object yields its map, `null` leaves the map
`nil`, all other documents error. -/
def unmarshalArgs : ArgDoc → Except String (Option JObj)
  | ArgDoc.wellFormed (Json.obj o) => Except.ok (some o)
  | ArgDoc.wellFormed Json.null => Except.ok none
  | ArgDoc.wellFormed _ =>
    Except.error "json: cannot unmarshal value into map[string]any"
  | ArgDoc.malformed _ => Except.error "invalid character in JSON arguments"

/-- One accumulated tool call from the completion stream
(`acc.Choices[0].Message.ToolCalls[i]`). -/
structure ToolCall where
  id : String
  name : String
  arguments : ArgDoc

/-- A conversation message (`openai.ChatCompletionMessageParamUnion`
restricted to the four roles the core produces; the assistant role carries
the accumulated tool calls of `Message.ToParam()`). -/
inductive Message where
  | system (content : String)
  | user (content : String)
  | assistant (content : String) (toolCalls : List ToolCall)
  | tool (content : String) (callId : String)

/-- Whether a message has the `system` role. -/
def Message.isSystem : Message → Bool
  | system _ => true
  | _ => false

/-- Embedding of `SimpleAgent.InitConversation`: the transcript is reset to the single
system message. -/
def InitConversation (system : String) : List Message :=
  [Message.system system]

/-- The accumulated assistant message of one streaming round
(`acc.Choices[0].Message`). -/
structure AccMsg where
  content : String
  toolCalls : List ToolCall

/-- Outcome of one streaming completion round: a transport error from
`stream.Err()`, or the accumulator's message (`none` when `acc.Choices` is
empty). -/
inductive StreamResult where
  | err (e : String)
  | ok (acc : Option AccMsg)

/-- The streaming completion client, abstracted as a function of the
conversation state sent in the request (the tool catalog is fixed for the
turn and folded into the oracle). -/
abbrev Client := List Message → StreamResult

/-- The `tool` message (if any) that processing one accumulated tool call
appends: calls with an empty name or id are ignored, a call whose arguments
fail to unmarshal is skipped, and a dispatch error becomes the
`"Error: …"` result string. -/
def toolResponse (userID : String) (servers : List Session)
    (tc : ToolCall) : Option Message :=
  if tc.name ≠ "" ∧ tc.id ≠ "" then
    match unmarshalArgs tc.arguments with
    | Except.error _ => none
    | Except.ok args =>
      let result : String :=
        match CallTool userID servers tc.name args with
        | Except.ok v => v.render
        | Except.error e => "Error: " ++ e
      some (Message.tool result tc.id)
  else none

/-- The inner `for _, toolCall := range …` loop of
`SimpleAgent.ProcessUserInput`: processes the calls in order, appending one
`tool` message per executed call. -/
def execToolCalls (userID : String) (servers : List Session)
    (calls : List ToolCall) (msgs : List Message) : List Message :=
  calls.foldl (fun ms tc =>
    match toolResponse userID servers tc with
    | some m => ms ++ [m]
    | none => ms) msgs

/-- Result of one turn of `SimpleAgent.ProcessUserInput`, carrying the final
conversation state; `outOfFuel` marks runs longer than the given bound on
completion rounds (the Go loop is unbounded). -/
inductive TurnOutcome where
  | ok (msgs : List Message)
  | failed (e : String) (msgs : List Message)
  | outOfFuel (msgs : List Message)

/-- The conversation state carried by a turn outcome. -/
def TurnOutcome.msgs : TurnOutcome → List Message
  | ok m => m
  | failed _ m => m
  | outOfFuel m => m

/-- The unbounded `for {}` loop of `SimpleAgent.ProcessUserInput`, with
explicit fuel bounding the number of completion rounds. -/
def processLoop (client : Client) (userID : String) (servers : List Session) :
    Nat → List Message → TurnOutcome
  | 0, msgs => TurnOutcome.outOfFuel msgs
  | fuel + 1, msgs =>
    match client msgs with
    | StreamResult.err e =>
      TurnOutcome.failed ("stream error: " ++ e) msgs
    | StreamResult.ok none => TurnOutcome.ok msgs
    | StreamResult.ok (some m) =>
      match m.toolCalls with
      | [] => TurnOutcome.ok (msgs ++ [Message.assistant m.content []])
      | _ :: _ =>
        let msgs1 := msgs ++ [Message.assistant m.content m.toolCalls]
        let msgs2 := execToolCalls userID servers m.toolCalls msgs1
        processLoop client userID servers fuel msgs2

/-- Go's `unicode.IsSpace` (the Unicode White_Space property, which is what
`strings.TrimSpace` strips). -/
def goIsSpace (c : Char) : Bool :=
  c.val == 0x20 || (0x9 ≤ c.val && c.val ≤ 0xD) || c.val == 0x85 ||
  c.val == 0xA0 || c.val == 0x1680 ||
  (0x2000 ≤ c.val && c.val ≤ 0x200A) || c.val == 0x2028 ||
  c.val == 0x2029 || c.val == 0x202F || c.val == 0x205F || c.val == 0x3000

/-- Go `strings.TrimSpace`: drop White_Space characters from both ends. -/
def trimSpace (s : String) : String :=
  String.mk (((s.data.dropWhile goIsSpace).reverse.dropWhile goIsSpace).reverse)

/-- Embedding of `SimpleAgent.ProcessUserInput`: blank input returns immediately with the
state untouched; otherwise the user message is appended and the completion
loop runs. -/
def ProcessUserInput (client : Client) (userID : String)
    (servers : List Session) (msgs : List Message) (userInput : String)
    (fuel : Nat) : TurnOutcome :=
  if trimSpace userInput = "" then TurnOutcome.ok msgs
  else processLoop client userID servers fuel (msgs ++ [Message.user userInput])

/-- A sequence of `ProcessUserInput` turns starting from a transcript. -/
def runInputs (client : Client) (userID : String) (servers : List Session)
    (fuel : Nat) : List Message → List String → List Message
  | msgs, [] => msgs
  | msgs, input :: rest =>
    runInputs client userID servers fuel
      (ProcessUserInput client userID servers msgs input fuel).msgs rest

/-! ### Association-list map lemmas -/

lemma jfind_cons (a : String × Json) (m : JObj) (k : String) :
    jfind (a :: m) k = if a.1 = k then some a.2 else jfind m k := by
  by_cases h : a.1 = k <;> simp [jfind, List.find?, h]

lemma jfind_append (m₁ m₂ : JObj) (k : String) :
    jfind (m₁ ++ m₂) k = (jfind m₁ k).or (jfind m₂ k) := by
  induction m₁ with
  | nil => simp [jfind]
  | cons a t ih =>
    by_cases h : a.1 = k <;> simp [jfind_cons, h, ih]

lemma jfind_map_replace (m : JObj) (k k' : String) (v : Json) (h : k' ≠ k) :
    jfind (m.map (fun p => if p.1 = k then (k, v) else p)) k' = jfind m k' := by
  induction m with
  | nil => simp [jfind]
  | cons a t ih =>
    by_cases ha : a.1 = k
    · simp [ha, jfind_cons, Ne.symm h, ih]
    · simp only [List.map_cons, if_neg ha, jfind_cons, ih]

lemma jfind_map_replace_self (m : JObj) (k : String) (v : Json)
    (h : (jfind m k).isSome) :
    jfind (m.map (fun p => if p.1 = k then (k, v) else p)) k = some v := by
  induction m with
  | nil => simp [jfind] at h
  | cons a t ih =>
    by_cases ha : a.1 = k
    · simp [ha, jfind_cons]
    · simp only [jfind_cons, if_neg ha] at h
      simp only [List.map_cons, if_neg ha, jfind_cons, if_neg ha, ih h]

lemma jfind_jset_self (m : JObj) (k : String) (v : Json) :
    jfind (jset m k v) k = some v := by
  unfold jset
  by_cases h : (jfind m k).isSome
  · simpa [h] using jfind_map_replace_self m k v h
  · rw [Option.not_isSome_iff_eq_none] at h
    rw [if_neg (by simp [h]), jfind_append, h, Option.none_or]
    simp [jfind_cons, jfind]

lemma jfind_jset_other (m : JObj) (k k' : String) (v : Json) (h : k' ≠ k) :
    jfind (jset m k v) k' = jfind m k' := by
  unfold jset
  by_cases hs : (jfind m k).isSome
  · simpa [hs] using jfind_map_replace m k k' v h
  · rw [Option.not_isSome_iff_eq_none] at hs
    rw [if_neg (by simp [hs]), jfind_append]
    have h1 : jfind [(k, v)] k' = none := by
      simp [jfind_cons, Ne.symm h, jfind]
    rw [h1, Option.or_none]

lemma jfind_jerase_self (m : JObj) (k : String) :
    jfind (jerase m k) k = none := by
  induction m with
  | nil => rfl
  | cons a t ih =>
    by_cases ha : a.1 = k
    · simpa [jerase, ha] using ih
    · simpa [jerase, ha, jfind_cons] using ih



lemma normType_type (m : JObj) :
    jfind (normType m) "type" = some (Json.str "object") := by
  unfold normType
  split
  · assumption
  · exact jfind_jset_self m "type" (Json.str "object")

lemma normType_other (m : JObj) (k : String) (h : k ≠ "type") :
    jfind (normType m) k = jfind m k := by
  unfold normType
  split
  · rfl
  · exact jfind_jset_other m "type" k (Json.str "object") h

lemma normPropsPresent_other (m : JObj) (k : String) (h : k ≠ "properties") :
    jfind (normPropsPresent m) k = jfind m k := by
  unfold normPropsPresent
  split
  · rfl
  · exact jfind_jset_other m "properties" k (Json.obj []) h

lemma normPropsMap_props (m : JObj) :
    ∃ o, jfind (normPropsMap m) "properties" = some (Json.obj o) := by
  unfold normPropsMap
  split
  · next h => exact ⟨_, h⟩
  · exact ⟨[], jfind_jset_self m "properties" (Json.obj [])⟩

lemma normPropsMap_other (m : JObj) (k : String) (h : k ≠ "properties") :
    jfind (normPropsMap m) k = jfind m k := by
  unfold normPropsMap
  split
  · rfl
  · exact jfind_jset_other m "properties" k (Json.obj []) h

lemma normUid_props (m : JObj) (props : JObj)
    (h : jfind m "properties" = some (Json.obj props)) :
    ∃ props2, jfind (normUid m) "properties" = some (Json.obj props2) ∧
      jfind props2 "uid" = none := by
  have hp : propsOf m = props := by unfold propsOf; rw [h]
  unfold normUid
  rw [hp]
  by_cases hu : (jfind props "uid").isSome
  · simp only [hu, if_true]
    have h4 : jfind (jset m "properties" (Json.obj (jerase props "uid")))
        "properties" = some (Json.obj (jerase props "uid")) :=
      jfind_jset_self m "properties" _
    split
    · refine ⟨jerase props "uid", ?_, jfind_jerase_self props "uid"⟩
      rw [jfind_jset_other _ "required" "properties" _ (by simp), h4]
    · exact ⟨jerase props "uid", h4, jfind_jerase_self props "uid"⟩
  · simp only [hu, if_false]
    rw [Option.not_isSome_iff_eq_none] at hu
    exact ⟨props, h, hu⟩

lemma normUid_other (m : JObj) (k : String) (h1 : k ≠ "properties")
    (h2 : k ≠ "required") :
    jfind (normUid m) k = jfind m k := by
  unfold normUid
  by_cases hu : (jfind (propsOf m) "uid").isSome
  · simp only [hu, if_true]
    split
    · rw [jfind_jset_other _ "required" k _ h2,
          jfind_jset_other _ "properties" k _ h1]
    · rw [jfind_jset_other _ "properties" k _ h1]
  · simp [hu]

/-- Any successful normalization result is `normUid (normPropsMap
(normPropsPresent (normType m0)))` for some starting map. -/
lemma normalizeParams_ok_form (schema : Option Json) (o : JObj)
    (h : normalizeParams schema = Except.ok o) :
    ∃ m0 : JObj,
      o = normUid (normPropsMap (normPropsPresent (normType m0))) := by
  cases schema with
  | none =>
    refine ⟨[("type", Json.str "object"), ("properties", Json.obj [])], ?_⟩
    simp only [normalizeParams, Except.ok.injEq] at h
    exact h.symm
  | some j =>
    cases j <;> simp only [normalizeParams, unmarshalToMap,
      Except.ok.injEq, reduceCtorEq] at h <;> exact ⟨_, h.symm⟩

/-- Postconditions of one normalization pass. -/
lemma normalizeParams_post (schema : Option Json) (o : JObj)
    (h : normalizeParams schema = Except.ok o) :
    jfind o "type" = some (Json.str "object") ∧
    ∃ props, jfind o "properties" = some (Json.obj props) ∧
      jfind props "uid" = none := by
  obtain ⟨m0, rfl⟩ := normalizeParams_ok_form schema o h
  constructor
  · rw [normUid_other _ "type" (by simp) (by simp),
        normPropsMap_other _ _ (by simp),
        normPropsPresent_other _ _ (by simp), normType_type]
  · obtain ⟨pr, hpr⟩ := normPropsMap_props (normPropsPresent (normType m0))
    exact normUid_props _ pr hpr


lemma normType_id (m : JObj) (h : jfind m "type" = some (Json.str "object")) :
    normType m = m := by
  unfold normType; rw [h]; rfl

lemma normPropsPresent_id (m : JObj) (h : (jfind m "properties").isSome) :
    normPropsPresent m = m := by
  unfold normPropsPresent
  split
  · rfl
  · next he => rw [he] at h; simp at h

lemma normPropsMap_id (m : JObj) (o : JObj)
    (h : jfind m "properties" = some (Json.obj o)) : normPropsMap m = m := by
  unfold normPropsMap; rw [h]

lemma normUid_id (m : JObj) (props : JObj)
    (h : jfind m "properties" = some (Json.obj props))
    (hu : jfind props "uid" = none) : normUid m = m := by
  have hp : propsOf m = props := by unfold propsOf; rw [h]
  unfold normUid
  rw [hp, hu]
  simp

/-- C8: normalization is idempotent. -/
theorem normalizeParams_idempotent (schema : Option Json) (o : JObj)
    (h : normalizeParams schema = Except.ok o) :
    normalizeParams (some (Json.obj o)) = Except.ok o := by
  obtain ⟨ht, props, hp, hu⟩ := normalizeParams_post schema o h
  simp only [normalizeParams, unmarshalToMap, Option.getD_some]
  rw [normType_id o ht, normPropsPresent_id o (by rw [hp]; rfl),
      normPropsMap_id o props hp, normUid_id o props hp hu]

theorem normalizeParams_idempotent_witness :
    normalizeParams (some (Json.obj [("type", Json.num 3),
        ("properties", Json.obj [("uid", Json.null), ("p", Json.null)]),
        ("required", Json.arr [Json.str "uid", Json.str "p", Json.num 1])]))
      = Except.ok [("type", Json.str "object"),
          ("properties", Json.obj [("p", Json.null)]),
          ("required", Json.arr [Json.str "p"])] ∧
    normalizeParams (some (Json.obj [("type", Json.str "object"),
        ("properties", Json.obj [("p", Json.null)]),
        ("required", Json.arr [Json.str "p"])]))
      = Except.ok [("type", Json.str "object"),
          ("properties", Json.obj [("p", Json.null)]),
          ("required", Json.arr [Json.str "p"])] :=
  ⟨rfl, normalizeParams_idempotent (some (Json.obj [("type", Json.num 3),
        ("properties", Json.obj [("uid", Json.null), ("p", Json.null)]),
        ("required", Json.arr [Json.str "uid", Json.str "p", Json.num 1])]))
      _ rfl⟩


/-- C3 counterexample: a descriptor whose `required` lists `"uid"` while its
`properties` map does not contain it keeps `"uid"` in `required` after
normalization. -/
theorem normalize_uid_required_counterexample :
    ∃ o, normalizeParams (some (Json.obj [("properties", Json.obj []),
        ("required", Json.arr [Json.str "uid"])])) = Except.ok o ∧
      jfind o "required" = some (Json.arr [Json.str "uid"]) :=
  ⟨_, rfl, rfl⟩

/-- C3 (amended): `"uid"` never survives in `properties`; it is removed from
an array-valued `required` only when it was present in the input's
`properties` map. -/
theorem normalize_uid_amended (schema : Option Json) (o : JObj)
    (h : normalizeParams schema = Except.ok o) :
    (∃ props, jfind o "properties" = some (Json.obj props) ∧
        jfind props "uid" = none) ∧
    (∀ m pr, schema = some (Json.obj m) →
      jfind m "properties" = some (Json.obj pr) →
      (jfind pr "uid").isSome →
      ∀ l, jfind o "required" = some (Json.arr l) → Json.str "uid" ∉ l) := by
  refine ⟨(normalizeParams_post schema o h).2, ?_⟩
  rintro m pr rfl hmp hpu l hreq
  simp only [normalizeParams, unmarshalToMap, Option.getD_some,
    Except.ok.injEq] at h
  subst h
  have htm : jfind (normType m) "properties" = some (Json.obj pr) := by
    rw [normType_other m _ (by simp), hmp]
  have hp_eq : normPropsMap (normPropsPresent (normType m)) = normType m := by
    rw [normPropsPresent_id _ (by rw [htm]; rfl), normPropsMap_id _ pr htm]
  rw [hp_eq] at hreq
  have hpropsOf : propsOf (normType m) = pr := by unfold propsOf; rw [htm]
  simp only [normUid, hpropsOf, hpu, if_true] at hreq
  split at hreq
  · next l0 heq =>
    rw [jfind_jset_self] at hreq
    simp only [Option.some.injEq, Json.arr.injEq] at hreq
    subst hreq
    intro hmem
    rw [List.mem_filter] at hmem
    simp at hmem
  · next hne =>
    exact absurd hreq (hne l)


theorem normalize_uid_amended_witness :
    normalizeParams (some (Json.obj [("properties",
        Json.obj [("uid", Json.null)]),
        ("required", Json.arr [Json.str "uid"])]))
      = Except.ok [("properties", Json.obj []), ("required", Json.arr []),
          ("type", Json.str "object")] ∧
    ((∃ props, jfind [("properties", Json.obj []),
          ("required", Json.arr []), ("type", Json.str "object")]
          "properties" = some (Json.obj props) ∧
        jfind props "uid" = none) ∧
    (∀ m pr, (some (Json.obj [("properties", Json.obj [("uid", Json.null)]),
          ("required", Json.arr [Json.str "uid"])]) : Option Json)
        = some (Json.obj m) →
      jfind m "properties" = some (Json.obj pr) →
      (jfind pr "uid").isSome →
      ∀ l, jfind [("properties", Json.obj []), ("required", Json.arr []),
          ("type", Json.str "object")] "required" = some (Json.arr l) →
        Json.str "uid" ∉ l)) :=
  ⟨rfl, normalize_uid_amended
    (some (Json.obj [("properties", Json.obj [("uid", Json.null)]),
        ("required", Json.arr [Json.str "uid"])]))
    [("properties", Json.obj []), ("required", Json.arr []),
        ("type", Json.str "object")] rfl⟩


/-! ### Dispatcher -/

lemma callToolLoop_all_error (name : String) (args : Option JObj)
    (pre : List Session)
    (hpre : ∀ t ∈ pre, ∃ e, t.invoke name args = Except.error e) :
    ∀ rest, callToolLoop name args (pre ++ rest) = callToolLoop name args rest := by
  induction pre with
  | nil => simp
  | cons a t ih =>
    intro rest
    obtain ⟨e, he⟩ := hpre a (by simp)
    simp only [List.cons_append, callToolLoop, he]
    exact ih (fun s hs => hpre s (by simp [hs])) rest

/-- C1: the first session whose invoke succeeds determines the dispatch
result, and sessions after it are irrelevant. -/
theorem callTool_first_success (uid name : String) (args : Option JObj)
    (pre post : List Session) (S : Session) (r : CallRes)
    (hpre : ∀ t ∈ pre, ∃ e, t.invoke name (injectUid uid args) = Except.error e)
    (hS : S.invoke name (injectUid uid args) = Except.ok r) :
    CallTool uid (pre ++ S :: post) name args = Except.ok (resValue r) ∧
    CallTool uid (pre ++ S :: post) name args
      = CallTool uid (pre ++ [S]) name args := by
  unfold CallTool
  rw [callToolLoop_all_error name _ pre hpre (S :: post),
      callToolLoop_all_error name _ pre hpre [S]]
  simp [callToolLoop, hS]

theorem callTool_first_success_witness :
    CallTool "user123"
        [⟨Except.ok [], fun _ _ => Except.error "tool not found"⟩,
         ⟨Except.ok [], fun _ _ => Except.ok ⟨["hello"]⟩⟩,
         ⟨Except.ok [], fun _ _ => Except.error "third server"⟩]
        "read_file" none
      = Except.ok (CallToolValue.content "hello") ∧
    CallTool "user123"
        [⟨Except.ok [], fun _ _ => Except.error "tool not found"⟩,
         ⟨Except.ok [], fun _ _ => Except.ok ⟨["hello"]⟩⟩,
         ⟨Except.ok [], fun _ _ => Except.error "third server"⟩]
        "read_file" none
      = CallTool "user123"
        [⟨Except.ok [], fun _ _ => Except.error "tool not found"⟩,
         ⟨Except.ok [], fun _ _ => Except.ok ⟨["hello"]⟩⟩]
        "read_file" none :=
  callTool_first_success "user123" "read_file" none
    [⟨Except.ok [], fun _ _ => Except.error "tool not found"⟩]
    [⟨Except.ok [], fun _ _ => Except.error "third server"⟩]
    ⟨Except.ok [], fun _ _ => Except.ok ⟨["hello"]⟩⟩ ⟨["hello"]⟩
    (by
      intro t ht
      rw [List.mem_singleton] at ht
      subst ht
      exact ⟨"tool not found", rfl⟩)
    rfl

/-- C6: when every session errors (in particular with no sessions at all),
dispatch fails with the not-found error naming the capability. -/
theorem callTool_all_error (uid name : String) (args : Option JObj)
    (servers : List Session)
    (h : ∀ t ∈ servers, ∃ e, t.invoke name (injectUid uid args) = Except.error e) :
    CallTool uid servers name args =
      Except.error ("tool " ++ name ++ " not found in any connected server") := by
  unfold CallTool
  have h2 := callToolLoop_all_error name (injectUid uid args) servers h []
  rw [List.append_nil] at h2
  rw [h2]
  rfl

theorem callTool_all_error_witness :
    CallTool "user123" [] "run_cmd" none =
      Except.error ("tool " ++ "run_cmd" ++ " not found in any connected server") :=
  callTool_all_error "user123" "run_cmd" none [] (by intro t ht; simp at ht)

/-! ### Catalog refresh -/

lemma getAllToolsLoop_eq (servers : List Session) (acc : List OpenAITool) :
    getAllToolsLoop servers acc =
      acc ++ servers.flatMap (fun s =>
        match buildOpenAIToolsFromMCP s with
        | Except.ok ts => ts
        | Except.error _ => []) := by
  induction servers generalizing acc with
  | nil => simp [getAllToolsLoop]
  | cons s rest ih =>
    simp only [getAllToolsLoop, List.flatMap_cons]
    cases hb : buildOpenAIToolsFromMCP s with
    | error e => simp [hb, ih]
    | ok ts => simp [hb, ih]

/-- C7: catalog refresh never fails; failing sessions are skipped and the
rest aggregated in provider order, with the all-fail case yielding the empty
catalog. -/
theorem getAllTools_total (servers : List Session) :
    GetAllTools servers =
      Except.ok (servers.flatMap (fun s =>
        match buildOpenAIToolsFromMCP s with
        | Except.ok ts => ts
        | Except.error _ => [])) ∧
    ((∀ s ∈ servers, ∃ e, buildOpenAIToolsFromMCP s = Except.error e) →
      GetAllTools servers = Except.ok []) := by
  constructor
  · unfold GetAllTools
    rw [getAllToolsLoop_eq]
    simp
  · intro hall
    unfold GetAllTools
    rw [getAllToolsLoop_eq]
    have : servers.flatMap (fun s =>
        match buildOpenAIToolsFromMCP s with
        | Except.ok ts => ts
        | Except.error _ => []) = [] := by
      induction servers with
      | nil => rfl
      | cons s rest ih =>
        obtain ⟨e, he⟩ := hall s (by simp)
        rw [List.flatMap_cons, he, ih (fun t ht => hall t (by simp [ht]))]
        rfl
    rw [this]
    rfl

theorem getAllTools_total_witness :
    GetAllTools [⟨Except.error "listing failed", fun _ _ => Except.error "x"⟩,
        ⟨Except.ok [⟨"read_file", "reads a file", none⟩],
         fun _ _ => Except.error "x"⟩]
      = Except.ok [⟨"read_file", "reads a file",
          [("type", Json.str "object"), ("properties", Json.obj [])]⟩] ∧
    GetAllTools [⟨Except.error "listing failed", fun _ _ => Except.error "x"⟩]
      = Except.ok [] :=
  ⟨(getAllTools_total
      [⟨Except.error "listing failed", fun _ _ => Except.error "x"⟩,
       ⟨Except.ok [⟨"read_file", "reads a file", none⟩],
        fun _ _ => Except.error "x"⟩]).1,
   (getAllTools_total
      [⟨Except.error "listing failed", fun _ _ => Except.error "x"⟩]).2
    (by
      intro t ht
      rw [List.mem_singleton] at ht
      subst ht
      exact ⟨"listing failed", rfl⟩)⟩


/-! ### Orchestration loop -/

lemma execToolCalls_eq (uid : String) (servers : List Session)
    (calls : List ToolCall) (msgs : List Message) :
    execToolCalls uid servers calls msgs =
      msgs ++ calls.filterMap (toolResponse uid servers) := by
  induction calls generalizing msgs with
  | nil => simp [execToolCalls]
  | cons tc rest ih =>
    simp only [execToolCalls, List.foldl_cons, List.filterMap_cons]
    cases h : toolResponse uid servers tc with
    | none =>
      simpa [execToolCalls, h] using ih msgs
    | some msg =>
      simpa [execToolCalls, h] using ih (msgs ++ [msg])

lemma processLoop_succ (client : Client) (uid : String)
    (servers : List Session) (fuel : Nat) (msgs : List Message) :
    processLoop client uid servers (fuel + 1) msgs =
      match client msgs with
      | StreamResult.err e => TurnOutcome.failed ("stream error: " ++ e) msgs
      | StreamResult.ok none => TurnOutcome.ok msgs
      | StreamResult.ok (some m) =>
        match m.toolCalls with
        | [] => TurnOutcome.ok (msgs ++ [Message.assistant m.content []])
        | _ :: _ =>
          processLoop client uid servers fuel
            (execToolCalls uid servers m.toolCalls
              (msgs ++ [Message.assistant m.content m.toolCalls])) := rfl

lemma processLoop_ok_some (client : Client) (uid : String)
    (servers : List Session) (fuel : Nat) (msgs : List Message) (m : AccMsg)
    (hc : client msgs = StreamResult.ok (some m)) :
    processLoop client uid servers (fuel + 1) msgs =
      match m.toolCalls with
      | [] => TurnOutcome.ok (msgs ++ [Message.assistant m.content []])
      | _ :: _ =>
        processLoop client uid servers fuel
          (execToolCalls uid servers m.toolCalls
            (msgs ++ [Message.assistant m.content m.toolCalls])) := by
  rw [processLoop_succ, hc]

lemma processLoop_tool_round (client : Client) (uid : String)
    (servers : List Session) (fuel : Nat) (msgs : List Message) (m : AccMsg)
    (hc : client msgs = StreamResult.ok (some m)) (hne : m.toolCalls ≠ []) :
    processLoop client uid servers (fuel + 1) msgs =
      processLoop client uid servers fuel
        (msgs ++ [Message.assistant m.content m.toolCalls]
          ++ m.toolCalls.filterMap (toolResponse uid servers)) := by
  obtain ⟨tc, rest, h⟩ : ∃ tc rest, m.toolCalls = tc :: rest := by
    cases hm : m.toolCalls with
    | nil => exact absurd hm hne
    | cons a b => exact ⟨a, b, rfl⟩
  rw [processLoop_ok_some client uid servers fuel msgs m hc, h]
  simp only [execToolCalls_eq, List.append_assoc]

lemma toolResponse_exec (uid : String) (servers : List Session)
    (tc : ToolCall) (args : Option JObj)
    (hname : tc.name ≠ "") (hid : tc.id ≠ "")
    (hargs : unmarshalArgs tc.arguments = Except.ok args) :
    toolResponse uid servers tc =
      some (Message.tool
        (match CallTool uid servers tc.name args with
         | Except.ok v => v.render
         | Except.error e => "Error: " ++ e) tc.id) := by
  unfold toolResponse
  rw [if_pos ⟨hname, hid⟩, hargs]


/-- C2: a successfully parsed call whose dispatch errors yields exactly one
`tool` message, carrying the error-describing string and correlated by the
call's id; the round then goes back to requesting another completion
instead of failing the turn. -/
theorem dispatch_error_is_tool_message (client : Client) (uid : String)
    (servers : List Session) (msgs : List Message) (m : AccMsg) (tc : ToolCall)
    (args : Option JObj) (e : String) (fuel : Nat)
    (hc : client msgs = StreamResult.ok (some m))
    (hmem : tc ∈ m.toolCalls)
    (hname : tc.name ≠ "") (hid : tc.id ≠ "")
    (hargs : unmarshalArgs tc.arguments = Except.ok args)
    (herr : CallTool uid servers tc.name args = Except.error e) :
    toolResponse uid servers tc = some (Message.tool ("Error: " ++ e) tc.id) ∧
    processLoop client uid servers (fuel + 1) msgs =
      processLoop client uid servers fuel
        (msgs ++ [Message.assistant m.content m.toolCalls]
          ++ m.toolCalls.filterMap (toolResponse uid servers)) := by
  constructor
  · rw [toolResponse_exec uid servers tc args hname hid hargs, herr]
  · exact processLoop_tool_round client uid servers fuel msgs m hc
      (fun hnil => by rw [hnil] at hmem; exact absurd hmem (List.not_mem_nil tc))

theorem dispatch_error_is_tool_message_witness :
    toolResponse "user123"
        [⟨Except.ok [], fun _ _ => Except.error "connection refused"⟩]
        ⟨"call_1", "run_cmd", ArgDoc.wellFormed (Json.obj [])⟩
      = some (Message.tool
          ("Error: " ++ "tool run_cmd not found in any connected server")
          "call_1") ∧
    processLoop
        (fun ms => match ms with
          | [Message.user "hi"] =>
            StreamResult.ok (some ⟨"",
              [⟨"call_1", "run_cmd", ArgDoc.wellFormed (Json.obj [])⟩]⟩)
          | _ => StreamResult.ok none)
        "user123" [⟨Except.ok [], fun _ _ => Except.error "connection refused"⟩]
        (1 + 1) [Message.user "hi"] =
      processLoop
        (fun ms => match ms with
          | [Message.user "hi"] =>
            StreamResult.ok (some ⟨"",
              [⟨"call_1", "run_cmd", ArgDoc.wellFormed (Json.obj [])⟩]⟩)
          | _ => StreamResult.ok none)
        "user123" [⟨Except.ok [], fun _ _ => Except.error "connection refused"⟩]
        1
        ([Message.user "hi"]
          ++ [Message.assistant ""
              [⟨"call_1", "run_cmd", ArgDoc.wellFormed (Json.obj [])⟩]]
          ++ List.filterMap
              (toolResponse "user123"
                [⟨Except.ok [], fun _ _ => Except.error "connection refused"⟩])
              [⟨"call_1", "run_cmd", ArgDoc.wellFormed (Json.obj [])⟩]) :=
  dispatch_error_is_tool_message
    (fun ms => match ms with
      | [Message.user "hi"] =>
        StreamResult.ok (some ⟨"",
          [⟨"call_1", "run_cmd", ArgDoc.wellFormed (Json.obj [])⟩]⟩)
      | _ => StreamResult.ok none)
    "user123" [⟨Except.ok [], fun _ _ => Except.error "connection refused"⟩]
    [Message.user "hi"]
    ⟨"", [⟨"call_1", "run_cmd", ArgDoc.wellFormed (Json.obj [])⟩]⟩
    ⟨"call_1", "run_cmd", ArgDoc.wellFormed (Json.obj [])⟩
    (some [])
    "tool run_cmd not found in any connected server" 1
    rfl (by simp) (by simp) (by simp) rfl rfl

/-- C5: a call whose argument document fails to parse is skipped — it
produces no `tool` message — while the remaining calls of the round are
still processed and the loop continues rather than aborting. -/
theorem parse_error_call_skipped (client : Client) (uid : String)
    (servers : List Session) (msgs : List Message) (m : AccMsg) (tc : ToolCall)
    (pe : String) (fuel : Nat)
    (hc : client msgs = StreamResult.ok (some m))
    (hmem : tc ∈ m.toolCalls)
    (hparse : unmarshalArgs tc.arguments = Except.error pe) :
    toolResponse uid servers tc = none ∧
    execToolCalls uid servers m.toolCalls
        (msgs ++ [Message.assistant m.content m.toolCalls])
      = msgs ++ [Message.assistant m.content m.toolCalls]
        ++ m.toolCalls.filterMap (toolResponse uid servers) ∧
    processLoop client uid servers (fuel + 1) msgs =
      processLoop client uid servers fuel
        (msgs ++ [Message.assistant m.content m.toolCalls]
          ++ m.toolCalls.filterMap (toolResponse uid servers)) := by
  refine ⟨?_, ?_, ?_⟩
  · unfold toolResponse
    split
    · rw [hparse]
    · rfl
  · rw [execToolCalls_eq]
  · exact processLoop_tool_round client uid servers fuel msgs m hc
      (fun hnil => by rw [hnil] at hmem; exact absurd hmem (List.not_mem_nil tc))


theorem parse_error_call_skipped_witness :
    toolResponse "user123" []
        ⟨"call_9", "run_cmd", ArgDoc.malformed "not json"⟩ = none ∧
    execToolCalls "user123" []
        [⟨"call_9", "run_cmd", ArgDoc.malformed "not json"⟩,
         ⟨"call_10", "run_cmd", ArgDoc.wellFormed (Json.obj [])⟩]
        ([Message.user "go"]
          ++ [Message.assistant ""
              [⟨"call_9", "run_cmd", ArgDoc.malformed "not json"⟩,
               ⟨"call_10", "run_cmd", ArgDoc.wellFormed (Json.obj [])⟩]])
      = [Message.user "go"]
        ++ [Message.assistant ""
            [⟨"call_9", "run_cmd", ArgDoc.malformed "not json"⟩,
             ⟨"call_10", "run_cmd", ArgDoc.wellFormed (Json.obj [])⟩]]
        ++ List.filterMap (toolResponse "user123" [])
            [⟨"call_9", "run_cmd", ArgDoc.malformed "not json"⟩,
             ⟨"call_10", "run_cmd", ArgDoc.wellFormed (Json.obj [])⟩] ∧
    processLoop
        (fun ms => match ms with
          | [Message.user "go"] =>
            StreamResult.ok (some ⟨"",
              [⟨"call_9", "run_cmd", ArgDoc.malformed "not json"⟩,
               ⟨"call_10", "run_cmd", ArgDoc.wellFormed (Json.obj [])⟩]⟩)
          | _ => StreamResult.ok none)
        "user123" [] (3 + 1) [Message.user "go"] =
      processLoop
        (fun ms => match ms with
          | [Message.user "go"] =>
            StreamResult.ok (some ⟨"",
              [⟨"call_9", "run_cmd", ArgDoc.malformed "not json"⟩,
               ⟨"call_10", "run_cmd", ArgDoc.wellFormed (Json.obj [])⟩]⟩)
          | _ => StreamResult.ok none)
        "user123" [] 3
        ([Message.user "go"]
          ++ [Message.assistant ""
              [⟨"call_9", "run_cmd", ArgDoc.malformed "not json"⟩,
               ⟨"call_10", "run_cmd", ArgDoc.wellFormed (Json.obj [])⟩]]
          ++ List.filterMap (toolResponse "user123" [])
              [⟨"call_9", "run_cmd", ArgDoc.malformed "not json"⟩,
               ⟨"call_10", "run_cmd", ArgDoc.wellFormed (Json.obj [])⟩]) :=
  parse_error_call_skipped
    (fun ms => match ms with
      | [Message.user "go"] =>
        StreamResult.ok (some ⟨"",
          [⟨"call_9", "run_cmd", ArgDoc.malformed "not json"⟩,
           ⟨"call_10", "run_cmd", ArgDoc.wellFormed (Json.obj [])⟩]⟩)
      | _ => StreamResult.ok none)
    "user123" [] [Message.user "go"]
    ⟨"", [⟨"call_9", "run_cmd", ArgDoc.malformed "not json"⟩,
          ⟨"call_10", "run_cmd", ArgDoc.wellFormed (Json.obj [])⟩]⟩
    ⟨"call_9", "run_cmd", ArgDoc.malformed "not json"⟩
    "invalid character in JSON arguments" 3
    rfl (by simp) rfl

/-- C4: a transport error from the completion stream fails the turn with the
stream error, and the conversation state is exactly the prior transcript
with the user message appended — no assistant message, partial or
otherwise. -/
theorem stream_error_fails_turn (client : Client) (uid : String)
    (servers : List Session) (msgs : List Message) (input : String)
    (fuel : Nat) (e : String)
    (hne : trimSpace input ≠ "")
    (herr : client (msgs ++ [Message.user input]) = StreamResult.err e) :
    ProcessUserInput client uid servers msgs input (fuel + 1) =
      TurnOutcome.failed ("stream error: " ++ e)
        (msgs ++ [Message.user input]) := by
  unfold ProcessUserInput
  rw [if_neg hne, processLoop_succ, herr]

theorem stream_error_fails_turn_witness :
    ProcessUserInput (fun _ => StreamResult.err "connection reset")
        "user123" [] [Message.system "You are a coding assistant."]
        "read x.txt" (4 + 1) =
      TurnOutcome.failed ("stream error: " ++ "connection reset")
        ([Message.system "You are a coding assistant."]
          ++ [Message.user "read x.txt"]) :=
  stream_error_fails_turn (fun _ => StreamResult.err "connection reset")
    "user123" [] [Message.system "You are a coding assistant."]
    "read x.txt" 4 "connection reset" (by decide) rfl

/-- C10: blank input (empty or all-whitespace) succeeds immediately and
leaves the conversation state untouched, for every completion client. -/
theorem blank_input_no_op (client : Client) (uid : String)
    (servers : List Session) (msgs : List Message) (input : String)
    (fuel : Nat) (h : trimSpace input = "") :
    ProcessUserInput client uid servers msgs input fuel =
      TurnOutcome.ok msgs := by
  unfold ProcessUserInput
  rw [if_pos h]

theorem blank_input_no_op_witness :
    trimSpace "  \t\n " = "" ∧
    ProcessUserInput (fun _ => StreamResult.err "never called") "user123" []
        [Message.system "s", Message.user "u"] "  \t\n " 7 =
      TurnOutcome.ok [Message.system "s", Message.user "u"] :=
  ⟨rfl, blank_input_no_op (fun _ => StreamResult.err "never called")
    "user123" [] [Message.system "s", Message.user "u"] "  \t\n " 7 rfl⟩


lemma toolResponse_not_system (uid : String) (servers : List Session)
    (tc : ToolCall) (x : Message)
    (h : toolResponse uid servers tc = some x) : x.isSystem = false := by
  simp only [toolResponse] at h
  split at h
  · split at h
    · exact absurd h (by simp)
    · rw [← Option.some.inj h]; rfl
  · exact absurd h (by simp)

lemma processLoop_appends (client : Client) (uid : String)
    (servers : List Session) :
    ∀ (fuel : Nat) (msgs : List Message), ∃ suffix,
      (processLoop client uid servers fuel msgs).msgs = msgs ++ suffix ∧
      ∀ x ∈ suffix, x.isSystem = false := by
  intro fuel
  induction fuel with
  | zero =>
    intro msgs
    exact ⟨[], by simp [processLoop, TurnOutcome.msgs], by simp⟩
  | succ n ih =>
    intro msgs
    cases hc : client msgs with
    | err e =>
      rw [processLoop_succ, hc]
      exact ⟨[], by simp [TurnOutcome.msgs], by simp⟩
    | ok acc =>
      cases acc with
      | none =>
        rw [processLoop_succ, hc]
        exact ⟨[], by simp [TurnOutcome.msgs], by simp⟩
      | some m =>
        rw [processLoop_ok_some client uid servers n msgs m hc]
        cases hm : m.toolCalls with
        | nil =>
          simp only [hm]
          refine ⟨[Message.assistant m.content []],
            by simp [TurnOutcome.msgs], ?_⟩
          intro x hx
          rw [List.mem_singleton] at hx
          subst hx
          rfl
        | cons tc rest =>
          simp only [hm]
          rw [execToolCalls_eq]
          obtain ⟨suf, h1, h2⟩ := ih
            (msgs ++ [Message.assistant m.content (tc :: rest)]
              ++ (tc :: rest).filterMap (toolResponse uid servers))
          refine ⟨[Message.assistant m.content (tc :: rest)]
            ++ (tc :: rest).filterMap (toolResponse uid servers) ++ suf, ?_, ?_⟩
          · rw [h1]
            simp [List.append_assoc]
          · intro x hx
            simp only [List.append_assoc, List.mem_append] at hx
            rcases hx with hx | hx | hx
            · rw [List.mem_singleton] at hx
              subst hx
              rfl
            · rw [List.mem_filterMap] at hx
              obtain ⟨c, _, hr⟩ := hx
              exact toolResponse_not_system uid servers c x hr
            · exact h2 x hx

lemma processUserInput_appends (client : Client) (uid : String)
    (servers : List Session) (msgs : List Message) (input : String)
    (fuel : Nat) :
    ∃ suffix,
      (ProcessUserInput client uid servers msgs input fuel).msgs
        = msgs ++ suffix ∧
      ∀ x ∈ suffix, x.isSystem = false := by
  unfold ProcessUserInput
  by_cases hb : trimSpace input = ""
  · exact ⟨[], by simp [hb, TurnOutcome.msgs], by simp⟩
  · rw [if_neg hb]
    obtain ⟨suf, h1, h2⟩ :=
      processLoop_appends client uid servers fuel (msgs ++ [Message.user input])
    refine ⟨[Message.user input] ++ suf, by rw [h1]; simp, ?_⟩
    intro x hx
    rw [List.mem_append] at hx
    rcases hx with hx | hx
    · rw [List.mem_singleton] at hx
      subst hx
      rfl
    · exact h2 x hx

lemma runInputs_appends (client : Client) (uid : String)
    (servers : List Session) (fuel : Nat) (inputs : List String) :
    ∀ msgs : List Message, ∃ suffix,
      runInputs client uid servers fuel msgs inputs = msgs ++ suffix ∧
      ∀ x ∈ suffix, x.isSystem = false := by
  induction inputs with
  | nil => intro msgs; exact ⟨[], by simp [runInputs], by simp⟩
  | cons input rest ih =>
    intro msgs
    obtain ⟨s1, h11, h12⟩ :=
      processUserInput_appends client uid servers msgs input fuel
    obtain ⟨s2, h21, h22⟩ := ih (msgs ++ s1)
    refine ⟨s1 ++ s2, ?_, ?_⟩
    · rw [runInputs, h11] at *
      rw [h21, List.append_assoc]
    · intro x hx
      rw [List.mem_append] at hx
      rcases hx with hx | hx
      · exact h12 x hx
      · exact h22 x hx

/-- C9: a turn only appends to the transcript, and a conversation built by
`InitConversation` followed by any sequence of turns has exactly one
`system` message, in first position. -/
theorem transcript_append_only_system_first (client : Client) (uid : String)
    (servers : List Session) (fuel : Nat) (sys : String)
    (inputs : List String) (msgs : List Message) (input : String) :
    (∃ suffix, (ProcessUserInput client uid servers msgs input fuel).msgs
        = msgs ++ suffix) ∧
    (∃ tail, runInputs client uid servers fuel (InitConversation sys) inputs
        = Message.system sys :: tail ∧ ∀ x ∈ tail, x.isSystem = false) := by
  constructor
  · obtain ⟨s, h1, _⟩ :=
      processUserInput_appends client uid servers msgs input fuel
    exact ⟨s, h1⟩
  · obtain ⟨s, h1, h2⟩ :=
      runInputs_appends client uid servers fuel inputs (InitConversation sys)
    exact ⟨s, by simpa [InitConversation] using h1, h2⟩


theorem transcript_append_only_system_first_witness :
    (∃ suffix, (ProcessUserInput (fun _ => StreamResult.ok none) "user123" []
        [Message.system "You are a coding assistant."] "hello" 2).msgs
      = [Message.system "You are a coding assistant."] ++ suffix) ∧
    (∃ tail, runInputs (fun _ => StreamResult.ok none) "user123" [] 2
        (InitConversation "You are a coding assistant.") ["hello", "bye"]
      = Message.system "You are a coding assistant." :: tail ∧
        ∀ x ∈ tail, x.isSystem = false) :=
  transcript_append_only_system_first (fun _ => StreamResult.ok none)
    "user123" [] 2 "You are a coding assistant." ["hello", "bye"]
    [Message.system "You are a coding assistant."] "hello"

end SimpleAgent
